import Mathlib

/-!
A formal model of the AltAlpha Lab simulation and optimization engine
(strategy.py, backtest.py, live_simulator.py, optimizer.py, metrics.py),
shallowly embedded over exact rational arithmetic.

Modelling conventions:
* A pandas/NumPy NaN entry is represented by `none` in an `Option ℚ` field;
  comparisons against NaN are false, as in pandas/NumPy.
* Boundary rounding of output fields (spec section 6) is omitted except where
  the source stores a rounded value and feeds it back into later computation
  (the open-trade entry fields and the completed-trade fields of the live
  simulator); there `roundQ`, an exact model of half-to-even decimal rounding,
  is applied exactly where the source applies round(x, d).
* Square roots and real-valued exponentiation (np.sqrt, the ** operator) do
  not stay inside ℚ; they are abstracted by function parameters (sqrtQ, powQ)
  so that every definition stays executable.  No claim settled below depends
  on the numeric values these parameters produce.
* A raising library call (np.percentile on an empty array) is modelled by an
  Option-valued result: none exactly where the source raises, so that no
  entry point asserts an output the program does not produce.
* The ranking sort of the optimizer (sort_values with the default unstable
  kind) has an unspecified order among tied keys; it is abstracted by a
  function parameter constrained in the theorems to what pandas guarantees.
-/

/-- Round a rational to the nearest integer, ties to the even integer:
the rounding used by Python round and NumPy round. -/
def roundHalfEven (q : ℚ) : ℤ :=
  let f := ⌊q⌋
  let r := q - (f : ℚ)
  if r < 1/2 then f
  else if 1/2 < r then f + 1
  else if 2 ∣ f then f else f + 1

/-- Round a rational to `d` decimal places, half to even: models round(x, d). -/
def roundQ (d : ℕ) (q : ℚ) : ℚ :=
  (roundHalfEven (q * 10 ^ d) : ℚ) / 10 ^ d

/-- Insert into a list sorted ascending by key, before the first element with
an equal or larger key (the stable insertion step). -/
def insertByKey {α : Type} (key : α → ℚ) (x : α) : List α → List α
  | [] => [x]
  | y :: ys => if key y < key x then y :: insertByKey key x ys else x :: y :: ys

/-- Stable ascending insertion sort by a rational key. -/
def sortByKey {α : Type} (key : α → ℚ) : List α → List α
  | [] => []
  | x :: xs => insertByKey key x (sortByKey key xs)

/-- The linear-interpolation formula of np.percentile on the sorted data: the
value at fractional index p/100 * (n-1).  This is the total computational
core only; the raising behaviour of np.percentile on an empty array lives in
npPercentile, and entry points reach this core only behind a nonemptiness
guard, under which the two agree (npPercentile_eq_core). -/
def npPercentileCore (p : ℚ) (xs : List ℚ) : ℚ :=
  let s := sortByKey id xs
  let n := s.length
  let pos := p * ((n : ℚ) - 1) / 100
  let i := (⌊pos⌋).toNat
  let frac := pos - ((⌊pos⌋ : ℤ) : ℚ)
  if i + 1 < n then s.getD i 0 + frac * (s.getD (i + 1) 0 - s.getD i 0)
  else s.getD (n - 1) 0

/-- np.percentile with the default linear interpolation: the value at
fractional index p/100 * (n-1) of the sorted data.  NumPy raises an
IndexError on an empty array; none models that raise. -/
def npPercentile (p : ℚ) (xs : List ℚ) : Option ℚ :=
  if xs = [] then none else some (npPercentileCore p xs)

/-- One row of the merged feature series built by
features.merge_price_and_sentiment: date, close price, daily return, raw
sentiment, 5-day rolling sentiment average, 5-day return volatility.
`none` models a NaN entry (the first rows of the rolling windows). -/
structure FeatureRow where
  date : ℤ
  close : ℚ
  ret : Option ℚ
  sentiment : ℚ
  sentiment_avg_5d : Option ℚ
  volatility_5d : Option ℚ
deriving DecidableEq, Inhabited

/-- Pandas comparison x < b for a possibly-NaN x: false on NaN. -/
def optLT (a : Option ℚ) (b : ℚ) : Bool :=
  match a with
  | none => false
  | some x => decide (x < b)

/-- Pandas comparison x > b for a possibly-NaN x: false on NaN. -/
def optGT (a : Option ℚ) (b : ℚ) : Bool :=
  match a with
  | none => false
  | some x => decide (b < x)

/-- The per-run volatility threshold: the requested percentile of the entire
volatility_5d column with NaN dropped (strategy.py line 41, live_simulator.py
lines 88-90, optimizer.py lines 91-93).  Deliberately computed from the full
series, including rows after any given simulated day.  none models the
np.percentile raise on a column that is entirely NaN, the shape every one- or
two-row history produces (the rolling standard deviation needs two valid
returns and the first return is itself NaN). -/
def volatilityThreshold (volatility_percentile : ℚ) (rows : List FeatureRow) : Option ℚ :=
  npPercentile volatility_percentile (rows.filterMap (·.volatility_5d))

/-- The np.select signal rule of strategy.py lines 44-52 and optimizer.py
lines 96-101: long (1) when sentiment_avg_5d > sentiment_threshold and
volatility_5d < vt, short (-1) when sentiment_avg_5d < -sentiment_threshold,
flat (0) otherwise; comparisons against NaN are false. -/
def selectSignal (sentiment_threshold vt : ℚ) (sa v : Option ℚ) : ℤ :=
  if optGT sa sentiment_threshold && optLT v vt then 1
  else if optLT sa (-sentiment_threshold) then -1
  else 0

/-- The _generate_signal function of live_simulator.py lines 13-43: flat when
either input is NaN, otherwise the same long/short/flat rule. -/
def generateSignal (sentiment_threshold vt : ℚ) (sa v : Option ℚ) : ℤ :=
  match sa, v with
  | some a, some w =>
    if sentiment_threshold < a ∧ w < vt then 1
    else if a < -sentiment_threshold then -1
    else 0
  | _, _ => 0

/-- The lag-shifted position series of strategy.py line 55, with the
volatility threshold vt supplied explicitly: 0 on day 0 (the shifted-in
fillna(0) value), and afterwards the signal of the previous day. -/
def positionAtWith (sentiment_threshold vt : ℚ) (rows : List FeatureRow) (t : ℕ) : ℤ :=
  if t = 0 then 0
  else
    let r := rows.getD (t - 1) default
    selectSignal sentiment_threshold vt r.sentiment_avg_5d r.volatility_5d

/-- The position series of generate_sentiment_strategy (strategy.py) and of
_run_strategy_backtest (optimizer.py lines 96-104): the np.select signals,
shifted forward by one day, with the volatility threshold taken as the
full-series percentile; none when that percentile raises. -/
def positionAt (sentiment_threshold volatility_percentile : ℚ)
    (rows : List FeatureRow) (t : ℕ) : Option ℤ :=
  (volatilityThreshold volatility_percentile rows).map fun vt =>
    positionAtWith sentiment_threshold vt rows t

/-- Daily market return with NaN filled by 0 (backtest.py line 52,
optimizer.py line 107). -/
def retAt (rows : List FeatureRow) (t : ℕ) : ℚ :=
  ((rows.getD t default).ret).getD 0

/-- The absolute one-day position difference of backtest.py line 61
(position.diff() leaves NaN at day 0, filled to 0 by fillna), with the
volatility threshold vt supplied explicitly as in positionAtWith; the entry
point runBacktest computes vt by the full-series percentile and raises when
it is undefined. -/
def positionChangeAt (sentiment_threshold vt : ℚ)
    (rows : List FeatureRow) (t : ℕ) : ℚ :=
  if t = 0 then 0
  else |((positionAtWith sentiment_threshold vt rows t : ℤ) : ℚ) -
        ((positionAtWith sentiment_threshold vt rows (t - 1) : ℤ) : ℚ)|

/-- The absolute one-day position difference of optimizer.py line 111:
np.diff(position, prepend=0), so day 0 is compared against 0; the threshold
vt is explicit as in positionChangeAt. -/
def optPositionChangeAt (sentiment_threshold vt : ℚ)
    (rows : List FeatureRow) (t : ℕ) : ℚ :=
  |((positionAtWith sentiment_threshold vt rows t : ℤ) : ℚ) -
    (if t = 0 then 0
     else ((positionAtWith sentiment_threshold vt rows (t - 1) : ℤ) : ℚ))|

/-- The transaction cost charged on day t (backtest.py lines 65-69): the full
transaction_cost fraction exactly when the position changed. -/
def costAt (sentiment_threshold vt transaction_cost : ℚ)
    (rows : List FeatureRow) (t : ℕ) : ℚ :=
  if 0 < positionChangeAt sentiment_threshold vt rows t
  then transaction_cost else 0

/-- The net strategy return of backtest.py lines 58 and 72:
position times market return, minus the transaction cost of the day. -/
def strategyReturnAt (sentiment_threshold vt transaction_cost : ℚ)
    (rows : List FeatureRow) (t : ℕ) : ℚ :=
  ((positionAtWith sentiment_threshold vt rows t : ℤ) : ℚ) * retAt rows t -
    costAt sentiment_threshold vt transaction_cost rows t

/-- The strategy return computed by optimizer.py lines 108-113, which uses the
np.diff(prepend=0) position change instead of diff().fillna(0). -/
def optStrategyReturnAt (sentiment_threshold vt transaction_cost : ℚ)
    (rows : List FeatureRow) (t : ℕ) : ℚ :=
  ((positionAtWith sentiment_threshold vt rows t : ℤ) : ℚ) * retAt rows t -
    (if 0 < optPositionChangeAt sentiment_threshold vt rows t
     then transaction_cost else 0)

/-- The running product (1 + r₀)(1 + r₁)⋯(1 + rₜ) of backtest.py line 76
(cumprod of 1 + strategy_returns). -/
def cumStrategyAt (sentiment_threshold vt transaction_cost : ℚ)
    (rows : List FeatureRow) : ℕ → ℚ
  | 0 => 1 + strategyReturnAt sentiment_threshold vt transaction_cost rows 0
  | t + 1 =>
    cumStrategyAt sentiment_threshold vt transaction_cost rows t *
      (1 + strategyReturnAt sentiment_threshold vt transaction_cost rows (t + 1))

/-- The portfolio value of backtest.py line 79: initial capital times the
running product of gross strategy returns. -/
def portfolioValueAt (initial_capital sentiment_threshold vt transaction_cost : ℚ)
    (rows : List FeatureRow) (t : ℕ) : ℚ :=
  initial_capital * cumStrategyAt sentiment_threshold vt transaction_cost rows t

/-- One output row of run_backtest (backtest.py lines 87-88). -/
structure BacktestRow where
  date : ℤ
  market_return : ℚ
  strategy_return : ℚ
  portfolio_value : ℚ
deriving DecidableEq, Inhabited

/-- run_backtest (backtest.py) applied to an already-merged feature series.
The empty series yields the empty output (strategy.py lines 37-38 and
backtest.py lines 45-46) before the percentile is taken; otherwise the full-series volatility threshold is
computed — raising, modelled by none, when the volatility column is entirely
NaN (strategy.py line 41) — and one output row is produced per input row. -/
def runBacktest (initial_capital transaction_cost sentiment_threshold volatility_percentile : ℚ)
    (rows : List FeatureRow) : Option (List BacktestRow) :=
  if rows.isEmpty then some []
  else
    (volatilityThreshold volatility_percentile rows).map fun vt =>
      (List.range rows.length).map fun t =>
        { date := (rows.getD t default).date
          market_return := retAt rows t
          strategy_return :=
            strategyReturnAt sentiment_threshold vt transaction_cost rows t
          portfolio_value :=
            portfolioValueAt initial_capital sentiment_threshold vt
              transaction_cost rows t }

/-- The keyword parameters of run_live_simulation (live_simulator.py). -/
structure SimParams where
  initial_capital : ℚ
  transaction_cost : ℚ
  sentiment_threshold : ℚ
  volatility_percentile : ℚ
deriving DecidableEq, Inhabited

/-- The open-trade record created at entry (live_simulator.py lines 193-200).
The price, value and cost fields are stored rounded to two decimal places,
exactly as the source stores round(x, 2), because the source reads them back
when the trade is closed. -/
structure OpenTrade where
  entry_date : ℤ
  entry_price : ℚ
  entry_value : ℚ
  entry_cost : ℚ
  shares : ℚ
  position : ℤ
deriving DecidableEq, Inhabited

/-- A completed trade (live_simulator.py lines 157-171).  The source stores
the position as the string LONG or SHORT; the model keeps the signed signal
(1 for LONG, -1 for SHORT).  Rounded fields are rounded exactly where the
source rounds them, since the summary statistics read them back. -/
structure CompletedTrade where
  trade_id : ℕ
  position : ℤ
  entry_date : ℤ
  entry_price : ℚ
  entry_value : ℚ
  exit_date : ℤ
  exit_price : ℚ
  exit_value : ℚ
  /-- Model-only field: the exact net exit proceeds (proceeds minus the exit
  cost) before the two-place rounding that produces exit_value; recorded so
  that claims can speak about the unrounded trade arithmetic. -/
  exit_net : ℚ
  shares : ℚ
  profit_loss : ℚ
  profit_loss_pct : ℚ
  holding_days : ℕ
  transaction_costs : ℚ
deriving DecidableEq, Inhabited

/-- One recorded simulation day (live_simulator.py lines 247-279).  The source
rounds the recorded copies of these quantities for display only; the model
records the exact values (spec section 6 treats that rounding as boundary
formatting).  preValue is the pre-trade portfolio value of line 117, the value
the peak and daily pnl are computed from; postValue is the end-of-day value of
lines 214-218 recorded as total_value. -/
structure SimStep where
  date : ℤ
  close : ℚ
  signal : ℤ
  position : ℤ
  shares : ℚ
  cash : ℚ
  preValue : ℚ
  postValue : ℚ
  dayPnl : ℚ
  peak : ℚ
  drawdown : ℚ
deriving DecidableEq, Inhabited

/-- The mutable state threaded through the day loop of run_live_simulation
(live_simulator.py lines 92-106), together with the append-only logs. -/
structure SimState where
  cash : ℚ
  position : ℤ
  shares : ℚ
  prevValue : ℚ
  peak : ℚ
  openTrade : Option OpenTrade
  steps : List SimStep
  trades : List CompletedTrade
deriving DecidableEq, Inhabited

/-- The initial simulation state (live_simulator.py lines 92-106). -/
def initState (p : SimParams) : SimState :=
  { cash := p.initial_capital
    position := 0
    shares := 0
    prevValue := p.initial_capital
    peak := p.initial_capital
    openTrade := none
    steps := []
    trades := [] }

/-- The portfolio value of live_simulator.py lines 115-119 and 214-218:
cash plus the market value of the held shares, computed from a state and the
day close.  The same guard as the source: the shares term only counts when a
position is held and the share count is positive. -/
def valueOf (st : SimState) (row : FeatureRow) : ℚ :=
  if st.position ≠ 0 ∧ 0 < st.shares then st.cash + st.shares * row.close else st.cash

/-- The updated running peak of live_simulator.py lines 122-123. -/
def newPeak (st : SimState) (row : FeatureRow) : ℚ :=
  if st.peak < valueOf st row then valueOf st row else st.peak

/-- The current drawdown of live_simulator.py line 124. -/
def drawdownOf (st : SimState) (row : FeatureRow) : ℚ :=
  if 0 < newPeak st row then (newPeak st row - valueOf st row) / newPeak st row else 0

/-- The signal emitted for the day (live_simulator.py lines 131-136). -/
def signalOf (p : SimParams) (vt : ℚ) (row : FeatureRow) : ℤ :=
  generateSignal p.sentiment_threshold vt row.sentiment_avg_5d row.volatility_5d

/-- Lines 145-183 of live_simulator.py: when the signal differs from the held
position and shares are actually held, liquidate at the day close net of the
transaction cost, complete the open trade record if one exists, and clear the
share count and the open trade.  Leaves every other state field unchanged. -/
def closePhase (p : SimParams) (vt : ℚ) (st : SimState) (row : FeatureRow) : SimState :=
  if signalOf p vt row ≠ st.position ∧ st.position ≠ 0 ∧ 0 < st.shares then
    let proceeds := st.shares * row.close
    let cost := proceeds * p.transaction_cost
    { st with
      cash := proceeds - cost
      shares := 0
      openTrade := none
      trades :=
        match st.openTrade with
        | some ot =>
          let tradePnl := proceeds - cost - ot.entry_value
          st.trades ++
            [{ trade_id := st.trades.length + 1
               position := ot.position
               entry_date := ot.entry_date
               entry_price := ot.entry_price
               entry_value := ot.entry_value
               exit_date := row.date
               exit_price := roundQ 2 row.close
               exit_value := roundQ 2 (proceeds - cost)
               exit_net := proceeds - cost
               shares := roundQ 4 st.shares
               profit_loss := roundQ 2 tradePnl
               profit_loss_pct :=
                 if 0 < ot.entry_value then roundQ 2 (tradePnl / ot.entry_value * 100) else 0
               holding_days := (st.steps.filter (fun s => ot.entry_date ≤ s.date)).length
               transaction_costs := roundQ 2 (ot.entry_cost + cost) }]
        | none => st.trades }
  else st

/-- Lines 186-210 of live_simulator.py, applied to the post-close state: when
the signal differs from the held position and is not flat, deploy all cash
net of the transaction cost into shares at the day close and record the new
open trade.  Leaves every other state field unchanged (in particular the
position field, which the source assigns afterwards, at line 212). -/
def openPhase (p : SimParams) (vt : ℚ) (st : SimState) (row : FeatureRow) : SimState :=
  if signalOf p vt row ≠ st.position ∧ signalOf p vt row ≠ 0 then
    let tradeValue := st.cash * (1 - p.transaction_cost)
    let cost := st.cash * p.transaction_cost
    { st with
      cash := 0
      shares := tradeValue / row.close
      openTrade := some
        { entry_date := row.date
          entry_price := roundQ 2 row.close
          entry_value := roundQ 2 tradeValue
          entry_cost := roundQ 2 cost
          shares := tradeValue / row.close
          position := signalOf p vt row } }
  else st

/-- Lines 143-212 of live_simulator.py: close, then open, then assign the new
position (the close and open phases never change the position field, so the
original comparison position is still in place for both guards). -/
def postTradeState (p : SimParams) (vt : ℚ) (st : SimState) (row : FeatureRow) : SimState :=
  let st1 := openPhase p vt (closePhase p vt st row) row
  { st1 with
    position := if signalOf p vt row ≠ st1.position then signalOf p vt row else st1.position }

/-- The SimStep recorded for the day (live_simulator.py lines 229-279),
with the exact values as discussed at SimStep. -/
def stepRecord (p : SimParams) (vt : ℚ) (st : SimState) (row : FeatureRow) : SimStep :=
  { date := row.date
    close := row.close
    signal := signalOf p vt row
    position := (postTradeState p vt st row).position
    shares := (postTradeState p vt st row).shares
    cash := (postTradeState p vt st row).cash
    preValue := valueOf st row
    postValue := valueOf (postTradeState p vt st row) row
    dayPnl := valueOf st row - st.prevValue
    peak := newPeak st row
    drawdown := drawdownOf st row }

/-- One iteration of the day loop of run_live_simulation (live_simulator.py
lines 109-281), as a pure state transformer: value the portfolio, update the
peak, run the trade phase, record the step, and roll the previous end-of-day
value forward. -/
def stepDay (p : SimParams) (vt : ℚ) (st : SimState) (row : FeatureRow) : SimState :=
  let st2 := postTradeState p vt st row
  { cash := st2.cash
    position := st2.position
    shares := st2.shares
    prevValue := valueOf st2 row
    peak := newPeak st row
    openTrade := st2.openTrade
    steps := st.steps ++ [stepRecord p vt st row]
    trades := st2.trades }


/-- The whole day loop: fold stepDay over the feature rows from the initial
state, with a fixed volatility threshold vt. -/
def simFold (p : SimParams) (vt : ℚ) (rows : List FeatureRow) : SimState :=
  rows.foldl (stepDay p vt) (initState p)

/-- The profit factor of the run summary: an explicit tagged value, since the
source uses the float infinity (reported as the string inf) as a sentinel. -/
inductive ProfitFactor where
  | infinite : ProfitFactor
  | val : ℚ → ProfitFactor
deriving DecidableEq, Inhabited

/-- The summary statistics of run_live_simulation (live_simulator.py lines
288-316) that the claims refer to.  Display-only fields derived from the same
lists (win rate, average win and loss, best and worst trade) are omitted, and
profit_factor is kept unrounded (the source rounds it when serializing).
Since every drawdown in the trace is nonnegative, the fold with initial
value 0 agrees with the source, which takes the python max over a nonempty
trace and substitutes 0 for an empty one. -/
structure SimSummary where
  trading_days : ℕ
  total_trades : ℕ
  winning_trades : ℕ
  losing_trades : ℕ
  total_profit : ℚ
  total_loss : ℚ
  profit_factor : ProfitFactor
  max_drawdown_pct : ℚ
deriving DecidableEq, Inhabited

/-- Build the run summary from the recorded trace and trade ledger
(live_simulator.py lines 288-316). -/
def mkSummary (steps : List SimStep) (trades : List CompletedTrade) : SimSummary :=
  let winning := trades.filter (fun t => 0 < t.profit_loss)
  let losing := trades.filter (fun t => t.profit_loss ≤ 0)
  let total_profit := (winning.map (·.profit_loss)).sum
  let total_loss := (losing.map (·.profit_loss)).sum
  let pf : ProfitFactor :=
    if total_loss ≠ 0 then .val |total_profit / total_loss|
    else if 0 < total_profit then .infinite
    else .val 0
  { trading_days := steps.length
    total_trades := trades.length
    winning_trades := winning.length
    losing_trades := losing.length
    total_profit := total_profit
    total_loss := total_loss
    profit_factor := pf
    max_drawdown_pct := (steps.map (fun s => s.drawdown * 100)).foldr max 0 }

/-- The result of a completed simulation run (live_simulator.py lines
318-328), restricted to the fields the claims mention. -/
structure SimResult where
  final_capital : ℚ
  steps : List SimStep
  trades : List CompletedTrade
  summary : SimSummary
deriving DecidableEq, Inhabited

/-- run_live_simulation (live_simulator.py) applied to an already-merged
feature series.  none covers the two ways no result object is produced: the
empty series, mapped to the empty dict (line 84) before the percentile is
taken, and the np.percentile raise on an all-NaN volatility column (line 88),
which propagates to the caller; no claim distinguishes the two cases.
Otherwise the full-series volatility threshold is fixed and the day loop
runs. -/
def runLiveSimulation (p : SimParams) (rows : List FeatureRow) : Option SimResult :=
  if rows.isEmpty then none
  else
    match volatilityThreshold p.volatility_percentile rows with
    | none => none
    | some vt =>
      let st := simFold p vt rows
      some { final_capital := (st.steps.getLast?).elim p.initial_capital (·.postValue)
             steps := st.steps
             trades := st.trades
             summary := mkSummary st.steps st.trades }

/-- The sample variance with ddof = 1: np.std(x, ddof=1) squared.  NumPy
produces NaN for fewer than two samples (division by zero in the mean of
squared deviations); the model returns none there. -/
def npVarDdof1 (xs : List ℚ) : Option ℚ :=
  if 2 ≤ xs.length then
    let n : ℚ := xs.length
    let m := xs.sum / n
    some ((xs.map (fun x => (x - m) ^ 2)).sum / (n - 1))
  else none

/-- The annualized return of optimizer.py lines 33-34 and metrics.py line 66:
(1 + total_return) to the power trading_days / n, minus one, where
total_return is the product of gross returns minus one and the real power is
abstracted by powQ. -/
def annualizedReturnOf (powQ : ℚ → ℕ → ℚ) (returns : List ℚ) : ℚ :=
  powQ (1 + ((returns.map (fun r => 1 + r)).prod - 1)) returns.length - 1

/-- The annualized volatility of optimizer.py lines 36-37 and metrics.py
lines 70-71: the ddof-1 sample std scaled by the square root of trading_days,
with np.sqrt abstracted by sqrtQ; none models the NaN that NumPy produces on
fewer than two samples. -/
def annualizedVolOf (sqrtQ : ℚ → ℚ) (trading_days : ℕ) (returns : List ℚ) : Option ℚ :=
  (npVarDdof1 returns).map fun v => sqrtQ v * sqrtQ trading_days

/-- The _compute_sharpe_ratio function of optimizer.py lines 13-41 (the name
avoids the leading underscore).  sqrtQ abstracts np.sqrt, and powQ b n
abstracts b ** (trading_days / n): both leave ℚ in the source, so they are
parameters here.  When the sample std is NaN (none) the NumPy comparison
NaN > 0 is false, so the guard yields 0, exactly as the source does. -/
def computeSharpe (sqrtQ : ℚ → ℚ) (powQ : ℚ → ℕ → ℚ) (trading_days : ℕ)
    (risk_free_rate : ℚ) (returns : List ℚ) : ℚ :=
  if returns.length = 0 then 0
  else
    match annualizedVolOf sqrtQ trading_days returns with
    | none => 0
    | some av =>
      if 0 < av then
        (annualizedReturnOf powQ returns - risk_free_rate) / av
      else 0

/-- One grid cell of the optimizer output (optimizer.py lines 132-140),
restricted to the fields the claims mention: the parameter pair and the
Sharpe ratio (rounded to four places as the source rounds it).  The other
reported per-cell metrics (total return, drawdown, volatility, trade count)
are display fields no claim refers to. -/
structure CellResult where
  sentiment_threshold : ℚ
  volatility_percentile : ℚ
  sharpe : ℚ
deriving DecidableEq, Inhabited

/-- The cell record of _run_strategy_backtest (optimizer.py lines 96-140)
given an explicit volatility threshold vt for the cell; runStrategyBacktest
computes vt by the cell percentile and raises when it is undefined. -/
def runStrategyBacktestWith (sqrtQ : ℚ → ℚ) (powQ : ℚ → ℕ → ℚ) (rows : List FeatureRow)
    (sentiment_threshold volatility_percentile vt transaction_cost : ℚ) : CellResult :=
  let strategy_returns := (List.range rows.length).map
    (optStrategyReturnAt sentiment_threshold vt transaction_cost rows)
  { sentiment_threshold := sentiment_threshold
    volatility_percentile := volatility_percentile
    sharpe := roundQ 4 (computeSharpe sqrtQ powQ 252 0 strategy_returns) }

/-- The _run_strategy_backtest function of optimizer.py lines 70-140 on
preloaded data: the cell threshold is the requested percentile of the
volatility column (lines 91-93), and none models the np.percentile raise
when that column is empty after dropna. -/
def runStrategyBacktest (sqrtQ : ℚ → ℚ) (powQ : ℚ → ℕ → ℚ) (rows : List FeatureRow)
    (sentiment_threshold volatility_percentile transaction_cost : ℚ) : Option CellResult :=
  (volatilityThreshold volatility_percentile rows).map fun vt =>
    runStrategyBacktestWith sqrtQ powQ rows sentiment_threshold volatility_percentile vt
      transaction_cost

/-- np.arange start stop step for a positive step: start + k * step for
0 ≤ k < ceil((stop - start) / step).  The optimizer only calls it with
positive steps; for a nonpositive step the model returns the empty list. -/
def npArange (start stop step : ℚ) : List ℚ :=
  if 0 < step then
    (List.range (⌈(stop - start) / step⌉).toNat).map fun k => start + k * step
  else []

/-- The swept sentiment thresholds (optimizer.py lines 304-308 and 316):
np.arange with the endpoint pulled in by half a step, then np.round(x, 2). -/
def sentimentValues (start stop step : ℚ) : List ℚ :=
  (npArange start (stop + step / 2) step).map (roundQ 2)

/-- The swept volatility percentiles (optimizer.py lines 309-313 and 317):
np.arange with the endpoint pulled in by half a step, then np.round(x, 0);
astype(int) is the identity on the already-integral rounded values. -/
def volatilityValues (start stop step : ℚ) : List ℚ :=
  (npArange start (stop + step / 2) step).map (roundQ 0)

/-- The grid-search loop of optimizer.py lines 320-329: the Cartesian product
in ascending iteration order, sentiment outer, volatility inner, each cell
evaluated by the supplied per-cell backtest. -/
def gridResults (eval : ℚ → ℚ → CellResult) (svals vvals : List ℚ) : List CellResult :=
  svals.flatMap fun s => vvals.map fun v => eval s v

/-- One concrete realization of the descending sort
results_df.sort_values(by sharpe, ascending=False) of optimizer.py line 333:
stable descending order by sharpe (pandas nargsort reverses the column,
argsorts it ascending and reverses the result; with a stable underlying
argsort, ties keep the original iteration order).  The program itself ranks
with the default NumPy argsort, an unstable introsort whose order among equal
keys is unspecified above its 16-element insertion-sort cutoff, so this
function is not claimed to reproduce the program tie order.  It serves as a
witness for the two properties sort_values does guarantee of the ranking — a
permutation of the input, sorted descending by sharpe (sortBySharpeDesc_spec)
— which the optimizer theorems take as the constraint on an otherwise
arbitrary sort parameter. -/
def sortBySharpeDesc (rs : List CellResult) : List CellResult :=
  (sortByKey (·.sharpe) rs.reverse).reverse

/-- The optimizer output (optimizer.py lines 363-374) restricted to what the
claims mention: the winning cell, the grid in iteration order, the ranked
grid, and the combination count. -/
structure OptResult where
  best_parameters : CellResult
  results : List CellResult
  ranked : List CellResult
  total_combinations : ℕ
deriving DecidableEq, Inhabited

/-- optimize_strategy of optimizer.py applied to an already-merged feature
series.  Empty data yields the empty result (lines 296-298).  When the
volatility column is entirely NaN, the first grid cell raises inside
np.percentile (lines 91-93); none models that raise, and behind this guard
the column is nonempty, so the total percentile core agrees with the raising
npPercentile in every cell (npPercentile_eq_core, and the per-cell agreement
with runStrategyBacktest is part of the optimizer theorem).  The ranking of
line 333 uses sort_values with the default unstable kind, whose order among
tied sharpe values is unspecified; it is therefore a parameter sortDesc,
constrained in the theorems to what pandas guarantees: a permutation of the
cells, sorted descending by sharpe.  An empty parameter grid would make the
source raise at iloc[0]; none there too. -/
def optimizeStrategy (sortDesc : List CellResult → List CellResult)
    (sqrtQ : ℚ → ℚ) (powQ : ℚ → ℕ → ℚ)
    (sentiment_start sentiment_stop sentiment_step : ℚ)
    (volatility_start volatility_stop volatility_step : ℚ)
    (transaction_cost : ℚ) (rows : List FeatureRow) : Option OptResult :=
  if rows.isEmpty then none
  else if rows.filterMap (·.volatility_5d) = [] then none
  else
    let svals := sentimentValues sentiment_start sentiment_stop sentiment_step
    let vvals := volatilityValues volatility_start volatility_stop volatility_step
    let results := gridResults
      (fun s v => runStrategyBacktestWith sqrtQ powQ rows s v
        (npPercentileCore v (rows.filterMap (·.volatility_5d))) transaction_cost)
      svals vvals
    let ranked := sortDesc results
    match ranked.head? with
    | some best =>
      some { best_parameters := best
             results := results
             ranked := ranked
             total_combinations := results.length }
    | none => none

/-- The performance-metrics record of metrics.py lines 87-95, restricted to
the fields the claims mention; annualized_volatility is none when the sample
std is NaN. -/
structure PerfMetrics where
  total_return : ℚ
  annualized_return : ℚ
  annualized_volatility : Option ℚ
  sharpe : ℚ
  trading_days : ℕ
deriving DecidableEq, Inhabited

/-- calculate_performance_metrics of metrics.py applied to an already-merged
feature series, with np.sqrt and the real power abstracted as in
computeSharpe.  none covers the two ways no metrics object is produced: the
empty backtest result, mapped to the empty dict (lines 51-52), and the
np.percentile raise inside run_backtest, which propagates to the caller; no
claim distinguishes the two cases.  The max_drawdown field is omitted (no
claim refers to it). -/
def calculateMetrics (sqrtQ : ℚ → ℚ) (powQ : ℚ → ℕ → ℚ) (risk_free_rate : ℚ)
    (trading_days : ℕ)
    (initial_capital transaction_cost sentiment_threshold volatility_percentile : ℚ)
    (rows : List FeatureRow) : Option PerfMetrics :=
  match runBacktest initial_capital transaction_cost sentiment_threshold
      volatility_percentile rows with
  | none => none
  | some [] => none
  | some (b0 :: bt) =>
    let all := b0 :: bt
    let strategy_returns := all.map (·.strategy_return)
    let total_return := (all.getLast (by simp)).portfolio_value / b0.portfolio_value - 1
    let annualized_return := powQ (1 + total_return) all.length - 1
    let annualized_volatility := annualizedVolOf sqrtQ trading_days strategy_returns
    let sharpe :=
      match annualized_volatility with
      | some av =>
        if 0 < av then (annualized_return - risk_free_rate) / av else 0
      | none => 0
    some { total_return := total_return
           annualized_return := annualized_return
           annualized_volatility := annualized_volatility
           sharpe := sharpe
           trading_days := all.length }

/-- Day 0 shared by the two series of the look-ahead counterexample:
strong positive sentiment, volatility 1. -/
def exRowA0 : FeatureRow :=
  { date := 0, close := 100, ret := none, sentiment := 1/2
    sentiment_avg_5d := some (1/2), volatility_5d := some 1 }

/-- Day 1 of the first look-ahead series: future volatility 3, which pulls
the median volatility threshold up to 2, above the volatility of day 0. -/
def exRowA1 : FeatureRow :=
  { date := 1, close := 100, ret := some (1/100), sentiment := 0
    sentiment_avg_5d := some 0, volatility_5d := some 3 }

/-- Day 1 of the second look-ahead series: future volatility 0, which pulls
the median volatility threshold down to 1/2, below the volatility of day 0. -/
def exRowB1 : FeatureRow :=
  { date := 1, close := 100, ret := some (1/100), sentiment := 0
    sentiment_avg_5d := some 0, volatility_5d := some 0 }

/-- Day 0 of the long-then-close example run: the signal turns long
immediately (sentiment 1/2 above the threshold, volatility 0 below the median
threshold 1/2 of the volatility column). -/
def exRowL0 : FeatureRow :=
  { date := 0, close := 100, ret := none, sentiment := 1/2
    sentiment_avg_5d := some (1/2), volatility_5d := some 0 }

/-- Day 1 of the long-then-close example run: the signal turns flat, so the
long position opened on day 0 is liquidated at the unchanged close. -/
def exRowL1 : FeatureRow :=
  { date := 1, close := 100, ret := some 0, sentiment := 0
    sentiment_avg_5d := some 0, volatility_5d := some 1 }

/-- The example run parameters: the source defaults. -/
def exParams : SimParams :=
  { initial_capital := 10000, transaction_cost := 1/1000
    sentiment_threshold := 1/5, volatility_percentile := 50 }

/-- The two-day long-then-close example series. -/
def exRows : List FeatureRow := [exRowL0, exRowL1]

/-- The completed example simulation run (the run is nonempty, so the default
is never taken). -/
def exRun : SimResult := (runLiveSimulation exParams exRows).getD default

/-- A two-day feature series whose volatility column is entirely NaN: the
shape every one- or two-row history produces, because the rolling standard
deviation needs two valid returns and the first return is itself NaN. -/
def exNaNRows : List FeatureRow :=
  [{ date := 0, close := 100, ret := none, sentiment := 1/2
     sentiment_avg_5d := some (1/2), volatility_5d := none },
   { date := 1, close := 101, ret := some (1/100), sentiment := 0
     sentiment_avg_5d := some (1/4), volatility_5d := none }]

/-- A two-day flat feature series: every return is zero, so with a zero
transaction cost every strategy return of every grid cell is zero and every
cell carries the same Sharpe ratio. -/
def exFlatRows : List FeatureRow :=
  [{ date := 0, close := 100, ret := none, sentiment := 3/10
     sentiment_avg_5d := some (3/10), volatility_5d := some 1 },
   { date := 1, close := 100, ret := some 0, sentiment := 0
     sentiment_avg_5d := some 0, volatility_5d := some 2 }]

/-- A small completed example grid search over the example series, with the
ranking sort instantiated by the stable realization and the square root and
power parameters instantiated by the identity. -/
def exOpt : OptResult :=
  (optimizeStrategy sortBySharpeDesc id (fun b _ => b)
    0 (1/5) (1/10) 40 60 10 (1/1000) exRows).getD default

theorem stepDay_steps_eq (p : SimParams) (vt : ℚ) (st : SimState) (row : FeatureRow) :
    (stepDay p vt st row).steps = st.steps ++ [stepRecord p vt st row] := rfl

theorem foldl_stepDay_steps_length (p : SimParams) (vt : ℚ) :
    ∀ (rows : List FeatureRow) (st : SimState),
      (rows.foldl (stepDay p vt) st).steps.length = st.steps.length + rows.length := by
  intro rows
  induction rows with
  | nil => intro st; simp
  | cons r rows ih =>
    intro st
    simp only [List.foldl_cons, ih, stepDay_steps_eq, List.length_append, List.length_cons,
      List.length_nil]
    omega

theorem foldl_stepDay_steps_getElem (p : SimParams) (vt : ℚ) :
    ∀ (rows : List FeatureRow) (st : SimState) (i : ℕ), i < st.steps.length →
      (rows.foldl (stepDay p vt) st).steps[i]? = st.steps[i]? := by
  intro rows
  induction rows with
  | nil => intro st i _; rfl
  | cons r rows ih =>
    intro st i hi
    rw [List.foldl_cons, ih (stepDay p vt st r) i
      (by rw [stepDay_steps_eq]; simp; omega), stepDay_steps_eq,
      List.getElem?_append_left hi]

theorem foldl_stepDay_steps_take (p : SimParams) (vt : ℚ)
    (rows : List FeatureRow) (st : SimState) (k i : ℕ)
    (hi : i < st.steps.length + (rows.take k).length) :
    (rows.foldl (stepDay p vt) st).steps[i]? =
      ((rows.take k).foldl (stepDay p vt) st).steps[i]? := by
  conv_lhs => rw [← List.take_append_drop k rows]
  rw [List.foldl_append]
  exact foldl_stepDay_steps_getElem p vt _ _ i
    (by rw [foldl_stepDay_steps_length]; omega)

/-- C1 (amended): with the volatility threshold held fixed, the position is a
function of the strictly earlier rows only — for the backtest position series
at day t, and for the position recorded by the live simulator on any day
earlier than t, two series that agree on the rows before day t agree. -/
theorem position_no_lookahead_given_threshold
    (sentiment_threshold vt : ℚ) (p : SimParams) (s1 s2 : List FeatureRow) (t : ℕ)
    (h : s1.take t = s2.take t) :
    positionAtWith sentiment_threshold vt s1 t = positionAtWith sentiment_threshold vt s2 t ∧
    (∀ i a b, i < t →
      (simFold p vt s1).steps[i]? = some a →
      (simFold p vt s2).steps[i]? = some b → a.position = b.position) := by
  constructor
  · unfold positionAtWith
    rcases Nat.eq_zero_or_pos t with ht | ht
    · simp [ht]
    · have hlt : t - 1 < t := by omega
      have hg : s1[t-1]? = s2[t-1]? := by
        have g1 : (s1.take t)[t-1]? = s1[t-1]? := by simp [List.getElem?_take, hlt]
        have g2 : (s2.take t)[t-1]? = s2[t-1]? := by simp [List.getElem?_take, hlt]
        rw [← g1, h, g2]
      have : s1.getD (t - 1) default = s2.getD (t - 1) default := by
        simp [List.getD, hg]
      simp only [this]
  · intro i a b hi ha hb
    have hlen1 : (simFold p vt s1).steps.length = s1.length := by
      unfold simFold
      rw [foldl_stepDay_steps_length]
      simp [initState]
    have hlen2 : (simFold p vt s2).steps.length = s2.length := by
      unfold simFold
      rw [foldl_stepDay_steps_length]
      simp [initState]
    have hl1 : i < s1.length := by
      by_contra hc
      push_neg at hc
      rw [List.getElem?_eq_none (by omega)] at ha
      cases ha
    have hl2 : i < s2.length := by
      by_contra hc
      push_neg at hc
      rw [List.getElem?_eq_none (by omega)] at hb
      cases hb
    have e1 : (simFold p vt s1).steps[i]? =
        ((s1.take t).foldl (stepDay p vt) (initState p)).steps[i]? := by
      apply foldl_stepDay_steps_take
      simp [initState, List.length_take]
      omega
    have e2 : (simFold p vt s2).steps[i]? =
        ((s2.take t).foldl (stepDay p vt) (initState p)).steps[i]? := by
      apply foldl_stepDay_steps_take
      simp [initState, List.length_take]
      omega
    rw [ha, h, ← e2, hb] at e1
    cases e1
    rfl

unseal Rat.mul Rat.inv Rat.add Rat.sub in
/-- C1 (counterexample): two feature series that agree on every row before
day 1, yet the position used on day 1 differs between them, because the
volatility threshold is a percentile of the full series and the two series
diverge in the future rows. -/
theorem position_lookahead_counterexample :
    List.take 1 [exRowA0, exRowA1] = List.take 1 [exRowA0, exRowB1] ∧
    positionAt (1/5) 50 [exRowA0, exRowA1] 1 ≠ positionAt (1/5) 50 [exRowA0, exRowB1] 1 := by
  decide

/-- C9: every core entry point maps the empty feature series to the empty
result instead of raising: the backtest returns the empty row list (some [],
not the raising none), and the live simulator, the optimizer (for every
ranking sort) and the performance metrics return the empty result object. -/
theorem empty_input_empty_output (sortDesc : List CellResult → List CellResult)
    (sqrtQ : ℚ → ℚ) (powQ : ℚ → ℕ → ℚ)
    (p : SimParams) (risk_free_rate : ℚ) (trading_days : ℕ)
    (cap tc sth vp s0 s1 s2 v0 v1 v2 : ℚ) :
    runBacktest cap tc sth vp [] = some [] ∧
    runLiveSimulation p [] = none ∧
    optimizeStrategy sortDesc sqrtQ powQ s0 s1 s2 v0 v1 v2 tc [] = none ∧
    calculateMetrics sqrtQ powQ risk_free_rate trading_days cap tc sth vp [] = none :=
  ⟨rfl, rfl, rfl, rfl⟩

/-- C8: the Sharpe computation never divides by a nonpositive or undefined
quantity.  When the annualized volatility is undefined (NaN) or not strictly
positive, the Sharpe ratio is 0; otherwise it is the annualized excess return
divided by the annualized volatility, and that division branch is entered
only with a strictly positive divisor.  The same holds for the sharpe field
of the performance metrics. -/
theorem sharpe_zero_vol_guard (sqrtQ : ℚ → ℚ) (powQ : ℚ → ℕ → ℚ)
    (trading_days : ℕ) (risk_free_rate : ℚ) (returns : List ℚ)
    (cap tc sth vp : ℚ) (rows : List FeatureRow) :
    (annualizedVolOf sqrtQ trading_days returns = none →
      computeSharpe sqrtQ powQ trading_days risk_free_rate returns = 0) ∧
    (∀ av, annualizedVolOf sqrtQ trading_days returns = some av → ¬0 < av →
      computeSharpe sqrtQ powQ trading_days risk_free_rate returns = 0) ∧
    (∀ av, annualizedVolOf sqrtQ trading_days returns = some av → 0 < av →
      computeSharpe sqrtQ powQ trading_days risk_free_rate returns =
        (annualizedReturnOf powQ returns - risk_free_rate) / av) ∧
    (∀ m, calculateMetrics sqrtQ powQ risk_free_rate trading_days cap tc sth vp rows = some m →
      (m.annualized_volatility = none → m.sharpe = 0) ∧
      (∀ av, m.annualized_volatility = some av → ¬0 < av → m.sharpe = 0) ∧
      (∀ av, m.annualized_volatility = some av → 0 < av →
        m.sharpe = (m.annualized_return - risk_free_rate) / av)) := by
  have hlen : ∀ av, annualizedVolOf sqrtQ trading_days returns = some av →
      returns.length ≠ 0 := by
    intro av hav h0
    rw [annualizedVolOf, npVarDdof1, if_neg (by omega)] at hav
    cases hav
  refine ⟨?_, ?_, ?_, ?_⟩
  · intro h
    unfold computeSharpe
    split
    · rfl
    · rw [h]
  · intro av hav hneg
    unfold computeSharpe
    rw [if_neg (hlen av hav), hav]
    simp [hneg]
  · intro av hav hpos
    unfold computeSharpe
    rw [if_neg (hlen av hav), hav]
    simp [hpos]
  · intro m hm
    unfold calculateMetrics at hm
    split at hm
    · cases hm
    · cases hm
    · rw [Option.some_inj] at hm
      subst hm
      refine ⟨?_, ?_, ?_⟩
      · intro h
        simp only at h ⊢
        rw [h]
      · intro av hav hneg
        simp only at hav ⊢
        rw [hav]
        simp [hneg]
      · intro av hav hpos
        simp only at hav ⊢
        rw [hav]
        simp [hpos]

unseal Rat.mul Rat.inv Rat.add Rat.sub in
/-- Witness for C8 at a concrete input: a two-return series with positive
sample variance, square root and power instantiated by identities. -/
theorem sharpe_zero_vol_guard_witness :
    annualizedVolOf id 252 [(1:ℚ)/10, 1/5] = some (63/50) ∧
    (0:ℚ) < 63/50 ∧
    computeSharpe id (fun b _ => b) 252 0 [(1:ℚ)/10, 1/5] =
      (annualizedReturnOf (fun b _ => b) [(1:ℚ)/10, 1/5] - 0) / (63/50) :=
  ⟨by decide, by decide,
    (sharpe_zero_vol_guard id (fun b _ => b) 252 0 [(1:ℚ)/10, 1/5] 0 0 0 0 []).2.2.1
      (63/50) (by decide) (by decide)⟩

/-- C2 (amended): whenever the full-series volatility threshold is defined —
the volatility column has at least one non-NaN entry, so np.percentile does
not raise — then on every day t the backtest strategy return is the position
times the market return minus the transaction cost charged exactly when the
position changed that day; the portfolio value is the initial capital times
the product of the gross strategy returns up to and including day t; the
optimizer backtest pipeline computes the same strategy return; and the
backtest output row records exactly these quantities. -/
theorem backtest_row_formula (cap sth vp tc vt : ℚ) (rows : List FeatureRow)
    (t : ℕ) (ht : t < rows.length)
    (hvt : volatilityThreshold vp rows = some vt) :
    strategyReturnAt sth vt tc rows t =
      ((positionAtWith sth vt rows t : ℤ) : ℚ) * retAt rows t -
        (if positionAtWith sth vt rows t ≠ positionAtWith sth vt rows (t - 1)
         then tc else 0) ∧
    portfolioValueAt cap sth vt tc rows t =
      cap * ((List.range (t + 1)).map (fun i => 1 + strategyReturnAt sth vt tc rows i)).prod ∧
    optStrategyReturnAt sth vt tc rows t = strategyReturnAt sth vt tc rows t ∧
    ∃ out : List BacktestRow,
      runBacktest cap tc sth vp rows = some out ∧
      out[t]? =
        some { date := (rows.getD t default).date
               market_return := retAt rows t
               strategy_return := strategyReturnAt sth vt tc rows t
               portfolio_value := portfolioValueAt cap sth vt tc rows t } := by
  have habs : ∀ a b : ℤ, (0 < |((a : ℤ) : ℚ) - ((b : ℤ) : ℚ)|) ↔ a ≠ b := by
    intro a b
    rw [abs_pos, sub_ne_zero]
    constructor
    · intro hne he
      exact hne (by rw [he])
    · intro hne he
      exact hne (by exact_mod_cast he)
  refine ⟨?_, ?_, ?_, ?_⟩
  · unfold strategyReturnAt costAt positionChangeAt
    rcases Nat.eq_zero_or_pos t with ht0 | ht0
    · subst ht0
      simp
    · simp only [if_neg (show ¬t = 0 by omega)]
      by_cases hp : positionAtWith sth vt rows t = positionAtWith sth vt rows (t - 1)
      · rw [hp]
        simp
      · rw [if_pos ((habs _ _).mpr hp), if_pos hp]
  · unfold portfolioValueAt
    congr 1
    clear ht
    induction t with
    | zero => simp [cumStrategyAt, List.range_succ]
    | succ k ih =>
      rw [cumStrategyAt, ih]
      conv_rhs => rw [List.range_succ, List.map_append, List.prod_append]
      simp
  · unfold optStrategyReturnAt strategyReturnAt costAt optPositionChangeAt positionChangeAt
    rcases Nat.eq_zero_or_pos t with ht0 | ht0
    · subst ht0
      simp [positionAtWith]
    · simp only [if_neg (show ¬t = 0 by omega)]
  · have hne : ¬rows.isEmpty = true := by
      rw [List.isEmpty_iff]
      intro hnil
      rw [hnil] at ht
      exact absurd ht (by simp)
    refine ⟨(List.range rows.length).map fun i =>
        { date := (rows.getD i default).date
          market_return := retAt rows i
          strategy_return := strategyReturnAt sth vt tc rows i
          portfolio_value := portfolioValueAt cap sth vt tc rows i }, ?_, ?_⟩
    · unfold runBacktest
      rw [if_neg hne, hvt]
      rfl
    · rw [List.getElem?_map, List.getElem?_range ht]
      rfl

unseal Rat.mul Rat.inv Rat.add Rat.sub in
/-- Witness for the amended C1 at a concrete input: the two counterexample
series agree before day 1, and with the volatility threshold fixed at 2 their
day-1 positions agree. -/
theorem position_no_lookahead_given_threshold_witness :
    positionAtWith (1/5) 2 [exRowA0, exRowA1] 1 = positionAtWith (1/5) 2 [exRowA0, exRowB1] 1 :=
  (position_no_lookahead_given_threshold (1/5) 2 exParams
    [exRowA0, exRowA1] [exRowA0, exRowB1] 1 (by decide)).1

unseal Rat.mul Rat.inv Rat.add Rat.sub in
/-- C2 (counterexample): a non-empty two-day series whose volatility column
is entirely NaN — the shape of every one- or two-row history — on which
run_backtest raises inside np.percentile instead of producing any output
row. -/
theorem backtest_raise_counterexample :
    runBacktest 10000 (1/1000) (1/5) 50 exNaNRows = none ∧ exNaNRows ≠ [] := by
  decide

unseal Rat.mul Rat.inv Rat.add Rat.sub in
/-- Witness for the amended C2 at a concrete input: day 1 of the two-day
example series, whose volatility threshold is the defined median 1/2. -/
theorem backtest_row_formula_witness :
    volatilityThreshold 50 exRows = some (1/2) ∧
    (strategyReturnAt (1/5) (1/2) (1/1000) exRows 1 =
      ((positionAtWith (1/5) (1/2) exRows 1 : ℤ) : ℚ) * retAt exRows 1 -
        (if positionAtWith (1/5) (1/2) exRows 1 ≠ positionAtWith (1/5) (1/2) exRows (1 - 1)
         then (1/1000 : ℚ) else 0)) ∧
    optStrategyReturnAt (1/5) (1/2) (1/1000) exRows 1 =
      strategyReturnAt (1/5) (1/2) (1/1000) exRows 1 :=
  ⟨by decide,
   (backtest_row_formula 10000 (1/5) 50 (1/1000) (1/2) exRows 1 (by decide) (by decide)).1,
   (backtest_row_formula 10000 (1/5) 50 (1/1000) (1/2) exRows 1 (by decide) (by decide)).2.2.1⟩

theorem stepDay_peak_eq (p : SimParams) (vt : ℚ) (st : SimState) (row : FeatureRow) :
    (stepDay p vt st row).peak = newPeak st row := rfl

theorem stepDay_prevValue_eq (p : SimParams) (vt : ℚ) (st : SimState) (row : FeatureRow) :
    (stepDay p vt st row).prevValue = valueOf (postTradeState p vt st row) row := rfl

theorem stepRecord_fields (p : SimParams) (vt : ℚ) (st : SimState) (row : FeatureRow) :
    (stepRecord p vt st row).peak = newPeak st row ∧
    (stepRecord p vt st row).preValue = valueOf st row ∧
    (stepRecord p vt st row).dayPnl = valueOf st row - st.prevValue ∧
    (stepRecord p vt st row).postValue = valueOf (postTradeState p vt st row) row :=
  ⟨rfl, rfl, rfl, rfl⟩

theorem peak_le_newPeak (st : SimState) (row : FeatureRow) : st.peak ≤ newPeak st row := by
  unfold newPeak
  split
  · exact le_of_lt (by assumption)
  · exact le_refl _

theorem valueOf_le_newPeak (st : SimState) (row : FeatureRow) :
    valueOf st row ≤ newPeak st row := by
  unfold newPeak
  split
  · exact le_refl _
  · exact le_of_not_lt (by assumption)

theorem runLiveSimulation_dest (p : SimParams) (rows : List FeatureRow) (res : SimResult)
    (h : runLiveSimulation p rows = some res) :
    ∃ vt, volatilityThreshold p.volatility_percentile rows = some vt ∧
      res.steps = (simFold p vt rows).steps ∧
      res.trades = (simFold p vt rows).trades ∧
      res.summary = mkSummary (simFold p vt rows).steps (simFold p vt rows).trades := by
  unfold runLiveSimulation at h
  split at h
  · cases h
  · split at h
    · cases h
    · rename_i vt heq
      rw [Option.some_inj] at h
      subst h
      exact ⟨vt, heq, rfl, rfl, rfl⟩

theorem foldl_stepDay_peak_invariant (p : SimParams) (vt : ℚ) :
    ∀ (rows : List FeatureRow) (st : SimState),
      List.Chain' (fun a b : SimStep => a.peak ≤ b.peak) st.steps →
      (∀ s ∈ st.steps, s.preValue ≤ s.peak) →
      (∀ s ∈ st.steps.getLast?, s.peak ≤ st.peak) →
      List.Chain' (fun a b : SimStep => a.peak ≤ b.peak)
          (rows.foldl (stepDay p vt) st).steps ∧
        (∀ s ∈ (rows.foldl (stepDay p vt) st).steps, s.preValue ≤ s.peak) ∧
        (∀ s ∈ (rows.foldl (stepDay p vt) st).steps.getLast?,
          s.peak ≤ (rows.foldl (stepDay p vt) st).peak) := by
  intro rows
  induction rows with
  | nil => intro st h1 h2 h3; exact ⟨h1, h2, h3⟩
  | cons r rows ih =>
    intro st h1 h2 h3
    rw [List.foldl_cons]
    apply ih
    · rw [stepDay_steps_eq, List.chain'_append]
      refine ⟨h1, List.chain'_singleton _, ?_⟩
      intro x hx y hy
      rw [List.head?_cons, Option.mem_def, Option.some_inj] at hy
      subst hy
      rw [(stepRecord_fields p vt st r).1]
      exact le_trans (h3 x hx) (peak_le_newPeak st r)
    · intro s hs
      rw [stepDay_steps_eq, List.mem_append, List.mem_singleton] at hs
      rcases hs with hs | hs
      · exact h2 s hs
      · subst hs
        rw [(stepRecord_fields p vt st r).1, (stepRecord_fields p vt st r).2.1]
        exact valueOf_le_newPeak st r
    · intro s hs
      rw [stepDay_steps_eq, List.getLast?_concat, Option.mem_def, Option.some_inj] at hs
      subst hs
      rw [(stepRecord_fields p vt st r).1, stepDay_peak_eq]

/-- C6: across every completed simulation run, the recorded running peak is
monotonically non-decreasing from step to step, and on every step the peak is
at least the pre-trade portfolio value it was last updated with. -/
theorem peak_nondecreasing (p : SimParams) (rows : List FeatureRow) (res : SimResult)
    (hrun : runLiveSimulation p rows = some res) :
    List.Chain' (fun a b : SimStep => a.peak ≤ b.peak) res.steps ∧
    ∀ s ∈ res.steps, s.preValue ≤ s.peak := by
  obtain ⟨vt, -, hsteps, -, -⟩ := runLiveSimulation_dest p rows res hrun
  rw [hsteps]
  have h := foldl_stepDay_peak_invariant p vt rows (initState p)
    (by simp [initState]) (by simp [initState]) (by simp [initState])
  exact ⟨h.1, h.2.1⟩

unseal Rat.mul Rat.inv Rat.add Rat.sub in
/-- Witness for C6 at a concrete input: the first step of the example run. -/
theorem peak_nondecreasing_witness :
    (exRun.steps.getD 0 default).preValue ≤ (exRun.steps.getD 0 default).peak := by
  have hrun : runLiveSimulation exParams exRows = some exRun := by decide
  exact (peak_nondecreasing exParams exRows exRun hrun).2 _ (by decide)

theorem foldl_stepDay_pnl_invariant (p : SimParams) (vt : ℚ) (cap : ℚ) :
    ∀ (rows : List FeatureRow) (st : SimState),
      (∀ i a b, st.steps[i]? = some a → st.steps[i + 1]? = some b →
        b.dayPnl = b.preValue - a.postValue) →
      (∀ a, st.steps[0]? = some a → a.dayPnl = a.preValue - cap) →
      (st.steps = [] → st.prevValue = cap) →
      (∀ a, st.steps.getLast? = some a → st.prevValue = a.postValue) →
      (∀ i a b, (rows.foldl (stepDay p vt) st).steps[i]? = some a →
        (rows.foldl (stepDay p vt) st).steps[i + 1]? = some b →
        b.dayPnl = b.preValue - a.postValue) ∧
      (∀ a, (rows.foldl (stepDay p vt) st).steps[0]? = some a →
        a.dayPnl = a.preValue - cap) := by
  intro rows
  induction rows with
  | nil => intro st h1 h2 _ _; exact ⟨h1, h2⟩
  | cons r rows ih =>
    intro st h1 h2 h3 h4
    rw [List.foldl_cons]
    apply ih
    · -- adjacency including the freshly appended step
      intro i a b ha hb
      rw [stepDay_steps_eq] at ha hb
      rcases Nat.lt_trichotomy (i + 1) st.steps.length with hlt | heq | hgt
      · rw [List.getElem?_append_left (by omega)] at ha
        rw [List.getElem?_append_left hlt] at hb
        exact h1 i a b ha hb
      · rw [List.getElem?_append_left (by omega)] at ha
        rw [heq] at hb
        rw [List.getElem?_concat_length] at hb
        rw [Option.some_inj] at hb
        subst hb
        rw [(stepRecord_fields p vt st r).2.2.1, (stepRecord_fields p vt st r).2.1]
        have hlast : st.steps.getLast? = some a := by
          rw [List.getLast?_eq_getElem?]
          have : st.steps.length - 1 = i := by omega
          rw [this]
          exact ha
        rw [h4 a hlast]
      · -- b would be past the end of the appended list
        have hlen : (st.steps ++ [stepRecord p vt st r]).length = st.steps.length + 1 := by
          simp
        rw [List.getElem?_eq_none (by rw [hlen]; omega)] at hb
        cases hb
    · intro a ha
      rw [stepDay_steps_eq] at ha
      rcases Nat.eq_zero_or_pos st.steps.length with h0 | h0
      · have hnil : st.steps = [] := List.eq_nil_of_length_eq_zero h0
        rw [hnil] at ha
        simp only [List.nil_append, List.getElem?_cons_zero, Option.some_inj] at ha
        subst ha
        rw [(stepRecord_fields p vt st r).2.2.1, (stepRecord_fields p vt st r).2.1, h3 hnil]
      · rw [List.getElem?_append_left h0] at ha
        exact h2 a ha
    · intro hnil
      rw [stepDay_steps_eq] at hnil
      exact absurd hnil (by simp)
    · intro a ha
      rw [stepDay_steps_eq, List.getLast?_concat, Option.some_inj] at ha
      subst ha
      rw [(stepRecord_fields p vt st r).2.2.2, stepDay_prevValue_eq]

/-- C7 (amended): the recorded daily pnl of day t is the pre-trade portfolio
value of day t minus the end-of-day (post-trade) value of day t-1 — the
mark-to-market move before the trades of that day — so the transaction costs
paid on day t first show up in the pnl of day t+1; day 0 is measured against
the initial capital. -/
theorem daily_pnl_pre_trade_formula (p : SimParams) (rows : List FeatureRow)
    (res : SimResult) (hrun : runLiveSimulation p rows = some res) :
    (∀ i a b, res.steps[i]? = some a → res.steps[i + 1]? = some b →
      b.dayPnl = b.preValue - a.postValue) ∧
    (∀ a, res.steps[0]? = some a → a.dayPnl = a.preValue - p.initial_capital) := by
  obtain ⟨vt, -, hsteps, -, -⟩ := runLiveSimulation_dest p rows res hrun
  rw [hsteps]
  exact foldl_stepDay_pnl_invariant p vt p.initial_capital rows (initState p)
    (by simp [initState]) (by simp [initState]) (by simp [initState]) (by simp [initState])

unseal Rat.mul Rat.inv Rat.add Rat.sub in
/-- C7 (counterexample): in the example run the position opened on day 0 is
closed on day 1 with a transaction cost, so end-of-day value drops from 9990
to 9980.01 while the recorded day-1 pnl is 0, not the end-of-day difference
-9.99. -/
theorem daily_pnl_counterexample :
    (exRun.steps.getD 1 default).dayPnl = 0 ∧
    (exRun.steps.getD 1 default).postValue - (exRun.steps.getD 0 default).postValue
      = -999/100 ∧
    (runLiveSimulation exParams exRows).isSome = true := by
  decide

unseal Rat.mul Rat.inv Rat.add Rat.sub in
/-- Witness for the amended C7 at a concrete input: day 1 of the example run. -/
theorem daily_pnl_pre_trade_formula_witness :
    (exRun.steps.getD 1 default).dayPnl =
      (exRun.steps.getD 1 default).preValue - (exRun.steps.getD 0 default).postValue := by
  have hrun : runLiveSimulation exParams exRows = some exRun := by decide
  exact (daily_pnl_pre_trade_formula exParams exRows exRun hrun).1 0 _ _
    (by decide) (by decide)

theorem signalOf_cases (p : SimParams) (vt : ℚ) (row : FeatureRow) :
    signalOf p vt row = 1 ∨ signalOf p vt row = -1 ∨ signalOf p vt row = 0 := by
  unfold signalOf
  rcases row.sentiment_avg_5d with _ | a <;> rcases row.volatility_5d with _ | w <;>
    simp only [generateSignal] <;> first
      | (split_ifs <;> simp)
      | simp

theorem closePhase_position (p : SimParams) (vt : ℚ) (st : SimState) (row : FeatureRow) :
    (closePhase p vt st row).position = st.position := by
  unfold closePhase
  split <;> rfl

theorem openPhase_position (p : SimParams) (vt : ℚ) (st : SimState) (row : FeatureRow) :
    (openPhase p vt st row).position = st.position := by
  unfold openPhase
  split <;> rfl

theorem closePhase_steps (p : SimParams) (vt : ℚ) (st : SimState) (row : FeatureRow) :
    (closePhase p vt st row).steps = st.steps := by
  unfold closePhase
  split <;> rfl

theorem openPhase_steps (p : SimParams) (vt : ℚ) (st : SimState) (row : FeatureRow) :
    (openPhase p vt st row).steps = st.steps := by
  unfold openPhase
  split <;> rfl

theorem closePhase_neg_eq (p : SimParams) (vt : ℚ) (st : SimState) (row : FeatureRow)
    (h : ¬(signalOf p vt row ≠ st.position ∧ st.position ≠ 0 ∧ 0 < st.shares)) :
    closePhase p vt st row = st := by
  unfold closePhase
  rw [if_neg h]

theorem closePhase_pos_fields (p : SimParams) (vt : ℚ) (st : SimState) (row : FeatureRow)
    (h : signalOf p vt row ≠ st.position ∧ st.position ≠ 0 ∧ 0 < st.shares) :
    (closePhase p vt st row).cash =
      st.shares * row.close - st.shares * row.close * p.transaction_cost ∧
    (closePhase p vt st row).shares = 0 ∧
    (closePhase p vt st row).openTrade = none ∧
    (∀ ct ∈ (closePhase p vt st row).trades, ct ∈ st.trades ∨
      (ct.exit_net = st.shares * row.close - st.shares * row.close * p.transaction_cost ∧
       ct.exit_value = roundQ 2 ct.exit_net ∧
       ct.profit_loss = roundQ 2 (ct.exit_net - ct.entry_value) ∧
       ∃ ot, st.openTrade = some ot ∧ ct.position = ot.position)) := by
  unfold closePhase
  rw [if_pos h]
  refine ⟨rfl, rfl, rfl, ?_⟩
  intro ct hct
  simp only at hct
  rcases hot : st.openTrade with _ | ot
  · rw [hot] at hct
    exact Or.inl hct
  · rw [hot] at hct
    rw [List.mem_append, List.mem_singleton] at hct
    rcases hct with hct | hct
    · exact Or.inl hct
    · subst hct
      exact Or.inr ⟨rfl, rfl, rfl, ot, rfl, rfl⟩

theorem openPhase_neg_eq (p : SimParams) (vt : ℚ) (st : SimState) (row : FeatureRow)
    (h : ¬(signalOf p vt row ≠ st.position ∧ signalOf p vt row ≠ 0)) :
    openPhase p vt st row = st := by
  unfold openPhase
  rw [if_neg h]

theorem openPhase_pos_fields (p : SimParams) (vt : ℚ) (st : SimState) (row : FeatureRow)
    (h : signalOf p vt row ≠ st.position ∧ signalOf p vt row ≠ 0) :
    (openPhase p vt st row).cash = 0 ∧
    (openPhase p vt st row).shares = st.cash * (1 - p.transaction_cost) / row.close ∧
    (∀ ot, (openPhase p vt st row).openTrade = some ot →
      ot.position = signalOf p vt row) ∧
    (openPhase p vt st row).trades = st.trades := by
  unfold openPhase
  rw [if_pos h]
  refine ⟨rfl, rfl, ?_, rfl⟩
  intro ot hot
  simp only [Option.some_inj] at hot
  subst hot
  rfl

theorem postTradeState_position (p : SimParams) (vt : ℚ) (st : SimState) (row : FeatureRow) :
    (postTradeState p vt st row).position =
      if signalOf p vt row ≠ st.position then signalOf p vt row else st.position := by
  unfold postTradeState
  simp only [openPhase_position, closePhase_position]

theorem postTradeState_cash (p : SimParams) (vt : ℚ) (st : SimState) (row : FeatureRow) :
    (postTradeState p vt st row).cash =
      (openPhase p vt (closePhase p vt st row) row).cash := rfl

theorem postTradeState_shares (p : SimParams) (vt : ℚ) (st : SimState) (row : FeatureRow) :
    (postTradeState p vt st row).shares =
      (openPhase p vt (closePhase p vt st row) row).shares := rfl

theorem postTradeState_openTrade (p : SimParams) (vt : ℚ) (st : SimState) (row : FeatureRow) :
    (postTradeState p vt st row).openTrade =
      (openPhase p vt (closePhase p vt st row) row).openTrade := rfl

theorem postTradeState_trades (p : SimParams) (vt : ℚ) (st : SimState) (row : FeatureRow) :
    (postTradeState p vt st row).trades =
      (openPhase p vt (closePhase p vt st row) row).trades := rfl

theorem postTradeState_main (p : SimParams) (vt : ℚ) (st : SimState) (row : FeatureRow)
    (htc1 : p.transaction_cost < 1) (hclose : 0 < row.close)
    (hA : st.position = 0 → st.shares = 0 ∧ 0 < st.cash)
    (hB : st.position ≠ 0 → 0 < st.shares ∧ st.cash = 0)
    (hOT : ∀ ot, st.openTrade = some ot → ot.position = 1 ∨ ot.position = -1)
    (hTR : ∀ ct ∈ st.trades,
      ct.exit_value = roundQ 2 ct.exit_net ∧
      ct.profit_loss = roundQ 2 (ct.exit_net - ct.entry_value) ∧
      (ct.position = 1 ∨ ct.position = -1)) :
    ((postTradeState p vt st row).position = 0 →
      (postTradeState p vt st row).shares = 0 ∧ 0 < (postTradeState p vt st row).cash) ∧
    ((postTradeState p vt st row).position ≠ 0 →
      0 < (postTradeState p vt st row).shares ∧ (postTradeState p vt st row).cash = 0) ∧
    (∀ ot, (postTradeState p vt st row).openTrade = some ot →
      ot.position = 1 ∨ ot.position = -1) ∧
    (∀ ct ∈ (postTradeState p vt st row).trades,
      ct.exit_value = roundQ 2 ct.exit_net ∧
      ct.profit_loss = roundQ 2 (ct.exit_net - ct.entry_value) ∧
      (ct.position = 1 ∨ ct.position = -1)) := by
  by_cases hsig : signalOf p vt row = st.position
  · have hpos : (postTradeState p vt st row).position = st.position := by
      rw [postTradeState_position, if_neg (by simp [hsig])]
    have hc : closePhase p vt st row = st :=
      closePhase_neg_eq p vt st row (by simp [hsig])
    have ho : openPhase p vt (closePhase p vt st row) row = st := by
      rw [hc]
      exact openPhase_neg_eq p vt st row (by simp [hsig])
    refine ⟨?_, ?_, ?_, ?_⟩
    · intro h0
      rw [hpos] at h0
      rw [postTradeState_shares, postTradeState_cash, ho]
      exact hA h0
    · intro hne
      rw [hpos] at hne
      rw [postTradeState_shares, postTradeState_cash, ho]
      exact hB hne
    · intro ot hot
      rw [postTradeState_openTrade, ho] at hot
      exact hOT ot hot
    · intro ct hct
      rw [postTradeState_trades, ho] at hct
      exact hTR ct hct
  · have hpos : (postTradeState p vt st row).position = signalOf p vt row := by
      rw [postTradeState_position, if_pos hsig]
    by_cases hp0 : st.position = 0
    · obtain ⟨hsh0, hcash⟩ := hA hp0
      have hsig0 : signalOf p vt row ≠ 0 := by
        rw [hp0] at hsig
        exact hsig
      have hc : closePhase p vt st row = st :=
        closePhase_neg_eq p vt st row (by rintro ⟨-, hne, -⟩; exact hne hp0)
      have hocond : signalOf p vt row ≠ (closePhase p vt st row).position ∧
          signalOf p vt row ≠ 0 := by
        rw [closePhase_position]
        exact ⟨hsig, hsig0⟩
      obtain ⟨hcash', hshares', hot', htr'⟩ :=
        openPhase_pos_fields p vt (closePhase p vt st row) row hocond
      refine ⟨?_, ?_, ?_, ?_⟩
      · intro h0
        rw [hpos] at h0
        exact absurd h0 hsig0
      · intro _
        rw [postTradeState_shares, postTradeState_cash]
        refine ⟨?_, hcash'⟩
        rw [hshares', hc]
        exact div_pos (mul_pos hcash (by linarith)) hclose
      · intro ot hot
        rw [postTradeState_openTrade] at hot
        rw [hot' ot hot]
        rcases signalOf_cases p vt row with h | h | h
        · exact Or.inl h
        · exact Or.inr h
        · exact absurd h hsig0
      · intro ct hct
        rw [postTradeState_trades, htr', hc] at hct
        exact hTR ct hct
    · obtain ⟨hshp, hcash0⟩ := hB hp0
      have hcond : signalOf p vt row ≠ st.position ∧ st.position ≠ 0 ∧ 0 < st.shares :=
        ⟨hsig, hp0, hshp⟩
      obtain ⟨hcashc, hsharesc, hotc, htrc⟩ := closePhase_pos_fields p vt st row hcond
      have hcashpos : 0 < (closePhase p vt st row).cash := by
        rw [hcashc]
        have hpr : 0 < st.shares * row.close := mul_pos hshp hclose
        nlinarith
      by_cases hs0 : signalOf p vt row = 0
      · have ho : openPhase p vt (closePhase p vt st row) row = closePhase p vt st row :=
          openPhase_neg_eq _ _ _ _ (by rintro ⟨-, hne⟩; exact hne hs0)
        refine ⟨?_, ?_, ?_, ?_⟩
        · intro _
          rw [postTradeState_shares, postTradeState_cash, ho]
          exact ⟨hsharesc, hcashpos⟩
        · intro hne
          rw [hpos] at hne
          exact absurd hs0 hne
        · intro ot hot
          rw [postTradeState_openTrade, ho, hotc] at hot
          cases hot
        · intro ct hct
          rw [postTradeState_trades, ho] at hct
          rcases htrc ct hct with hmem | ⟨hnet, hev, hpl, ot, hoteq, hpos'⟩
          · exact hTR ct hmem
          · exact ⟨hev, hpl, by rw [hpos']; exact hOT ot hoteq⟩
      · have hocond : signalOf p vt row ≠ (closePhase p vt st row).position ∧
            signalOf p vt row ≠ 0 := by
          rw [closePhase_position]
          exact ⟨hsig, hs0⟩
        obtain ⟨hcash', hshares', hot', htr'⟩ :=
          openPhase_pos_fields p vt (closePhase p vt st row) row hocond
        refine ⟨?_, ?_, ?_, ?_⟩
        · intro h0
          rw [hpos] at h0
          exact absurd h0 hs0
        · intro _
          rw [postTradeState_shares, postTradeState_cash]
          refine ⟨?_, hcash'⟩
          rw [hshares']
          exact div_pos (mul_pos hcashpos (by linarith)) hclose
        · intro ot hot
          rw [postTradeState_openTrade] at hot
          rw [hot' ot hot]
          rcases signalOf_cases p vt row with h | h | h
          · exact Or.inl h
          · exact Or.inr h
          · exact absurd h hs0
        · intro ct hct
          rw [postTradeState_trades, htr'] at hct
          rcases htrc ct hct with hmem | ⟨hnet, hev, hpl, ot, hoteq, hpos'⟩
          · exact hTR ct hmem
          · exact ⟨hev, hpl, by rw [hpos']; exact hOT ot hoteq⟩

theorem stepRecord_props (p : SimParams) (vt : ℚ) (st : SimState) (row : FeatureRow)
    (hA2 : (postTradeState p vt st row).position = 0 →
      (postTradeState p vt st row).shares = 0 ∧ 0 < (postTradeState p vt st row).cash)
    (hB2 : (postTradeState p vt st row).position ≠ 0 →
      0 < (postTradeState p vt st row).shares ∧ (postTradeState p vt st row).cash = 0) :
    (0 < (stepRecord p vt st row).shares ↔ (stepRecord p vt st row).position ≠ 0) ∧
    ((stepRecord p vt st row).position ≠ 0 ↔ (stepRecord p vt st row).cash = 0) ∧
    (stepRecord p vt st row).postValue =
      (stepRecord p vt st row).cash +
        (stepRecord p vt st row).shares * (stepRecord p vt st row).close := by
  have e1 : (stepRecord p vt st row).shares = (postTradeState p vt st row).shares := rfl
  have e2 : (stepRecord p vt st row).position = (postTradeState p vt st row).position := rfl
  have e3 : (stepRecord p vt st row).cash = (postTradeState p vt st row).cash := rfl
  have e4 : (stepRecord p vt st row).close = row.close := rfl
  have e5 : (stepRecord p vt st row).postValue = valueOf (postTradeState p vt st row) row := rfl
  rw [e1, e2, e3, e4, e5]
  by_cases hp : (postTradeState p vt st row).position = 0
  · obtain ⟨hsh, hcash⟩ := hA2 hp
    unfold valueOf
    rw [if_neg (by rintro ⟨hne, -⟩; exact hne hp)]
    refine ⟨⟨?_, ?_⟩, ⟨?_, ?_⟩, ?_⟩
    · intro hlt
      rw [hsh] at hlt
      exact absurd hlt (lt_irrefl 0)
    · intro hne
      exact absurd hp hne
    · intro hne
      exact absurd hp hne
    · intro hc0
      rw [hc0] at hcash
      exact absurd hcash (lt_irrefl 0)
    · rw [hsh]
      ring
  · obtain ⟨hsh, hcash⟩ := hB2 hp
    unfold valueOf
    rw [if_pos ⟨hp, hsh⟩]
    exact ⟨⟨fun _ => hp, fun _ => hsh⟩, ⟨fun _ => hcash, fun _ => hp⟩, rfl⟩

theorem foldl_stepDay_alloc_invariant (p : SimParams) (vt : ℚ)
    (htc1 : p.transaction_cost < 1) :
    ∀ (rows : List FeatureRow) (st : SimState),
      (∀ r ∈ rows, 0 < r.close) →
      (st.position = 0 → st.shares = 0 ∧ 0 < st.cash) →
      (st.position ≠ 0 → 0 < st.shares ∧ st.cash = 0) →
      (∀ ot, st.openTrade = some ot → ot.position = 1 ∨ ot.position = -1) →
      (∀ ct ∈ st.trades,
        ct.exit_value = roundQ 2 ct.exit_net ∧
        ct.profit_loss = roundQ 2 (ct.exit_net - ct.entry_value) ∧
        (ct.position = 1 ∨ ct.position = -1)) →
      (∀ s ∈ st.steps,
        (0 < s.shares ↔ s.position ≠ 0) ∧ (s.position ≠ 0 ↔ s.cash = 0) ∧
        s.postValue = s.cash + s.shares * s.close) →
      (∀ s ∈ (rows.foldl (stepDay p vt) st).steps,
        (0 < s.shares ↔ s.position ≠ 0) ∧ (s.position ≠ 0 ↔ s.cash = 0) ∧
        s.postValue = s.cash + s.shares * s.close) ∧
      (∀ ct ∈ (rows.foldl (stepDay p vt) st).trades,
        ct.exit_value = roundQ 2 ct.exit_net ∧
        ct.profit_loss = roundQ 2 (ct.exit_net - ct.entry_value) ∧
        (ct.position = 1 ∨ ct.position = -1)) := by
  intro rows
  induction rows with
  | nil => intro st _ _ _ _ hTR hSP; exact ⟨hSP, hTR⟩
  | cons r rows ih =>
    intro st hrows hA hB hOT hTR hSP
    rw [List.foldl_cons]
    have hclose : 0 < r.close := hrows r (by simp)
    obtain ⟨mA, mB, mOT, mTR⟩ := postTradeState_main p vt st r htc1 hclose hA hB hOT hTR
    apply ih (stepDay p vt st r) (fun x hx => hrows x (by simp [hx])) mA mB mOT mTR
    intro s hs
    rw [stepDay_steps_eq, List.mem_append, List.mem_singleton] at hs
    rcases hs with hs | hs
    · exact hSP s hs
    · subst hs
      exact stepRecord_props p vt st r mA mB

/-- C3: for every step of a completed run with positive initial capital, a
transaction cost below one and positive closes, the portfolio is either fully
invested or fully in cash: the share count is positive exactly when the
position is not flat, and the position is not flat exactly when the cash is
exactly zero. -/
theorem fully_invested_or_flat (p : SimParams) (rows : List FeatureRow) (res : SimResult)
    (hcap : 0 < p.initial_capital) (htc1 : p.transaction_cost < 1)
    (hclose : ∀ r ∈ rows, 0 < r.close)
    (hrun : runLiveSimulation p rows = some res) :
    ∀ s ∈ res.steps, (0 < s.shares ↔ s.position ≠ 0) ∧ (s.position ≠ 0 ↔ s.cash = 0) := by
  obtain ⟨vt, -, hsteps, -, -⟩ := runLiveSimulation_dest p rows res hrun
  rw [hsteps]
  intro s hs
  have h := (foldl_stepDay_alloc_invariant p vt htc1 rows (initState p) hclose
    (fun _ => ⟨rfl, hcap⟩) (fun hne => absurd rfl hne)
    (fun ot hot => by cases hot) (fun ct hct => by cases hct)
    (fun s hs => by cases hs)).1 s hs
  exact ⟨h.1, h.2.1⟩

unseal Rat.mul Rat.inv Rat.add Rat.sub in
/-- Witness for C3 at a concrete input: the first step of the example run. -/
theorem fully_invested_or_flat_witness :
    (0 < (exRun.steps.getD 0 default).shares ↔ (exRun.steps.getD 0 default).position ≠ 0) ∧
    ((exRun.steps.getD 0 default).position ≠ 0 ↔ (exRun.steps.getD 0 default).cash = 0) := by
  have hrun : runLiveSimulation exParams exRows = some exRun := by decide
  exact fully_invested_or_flat exParams exRows exRun (by decide) (by decide)
    (by decide) hrun _ (by decide)

/-- C10: a short position is carried as a positive share count and valued by
the same formula as a long one — every recorded step satisfies
postValue = cash + shares * close regardless of the position sign, every
completed trade (LONG or SHORT alike) realizes
profit_loss = round(net exit proceeds - entry value), and with a short
position held through the day a strictly higher close yields a strictly
higher end-of-day value: the short gains when the price rises. -/
theorem short_valued_like_long (p : SimParams) (rows : List FeatureRow) (res : SimResult)
    (hcap : 0 < p.initial_capital) (htc1 : p.transaction_cost < 1)
    (hclose : ∀ r ∈ rows, 0 < r.close)
    (hrun : runLiveSimulation p rows = some res) :
    (∀ s ∈ res.steps, s.postValue = s.cash + s.shares * s.close) ∧
    (∀ ct ∈ res.trades,
      ct.exit_value = roundQ 2 ct.exit_net ∧
      ct.profit_loss = roundQ 2 (ct.exit_net - ct.entry_value) ∧
      (ct.position = 1 ∨ ct.position = -1)) ∧
    (∀ (vt : ℚ) (st : SimState) (row1 row2 : FeatureRow),
      st.position = -1 → 0 < st.shares →
      row1.sentiment_avg_5d = row2.sentiment_avg_5d →
      row1.volatility_5d = row2.volatility_5d →
      signalOf p vt row1 = -1 →
      row1.close < row2.close →
      (stepDay p vt st row1).prevValue < (stepDay p vt st row2).prevValue) := by
  obtain ⟨vtr, -, hsteps, htrades, -⟩ := runLiveSimulation_dest p rows res hrun
  have hinv := foldl_stepDay_alloc_invariant p vtr htc1 rows (initState p) hclose
    (fun _ => ⟨rfl, hcap⟩) (fun hne => absurd rfl hne)
    (fun ot hot => by cases hot) (fun ct hct => by cases hct)
    (fun s hs => by cases hs)
  refine ⟨?_, ?_, ?_⟩
  · rw [hsteps]
    intro s hs
    exact (hinv.1 s hs).2.2
  · rw [htrades]
    exact hinv.2
  · intro vt st row1 row2 hshort hsh hf1 hf2 hsig1 hcc
    have hsig2 : signalOf p vt row2 = -1 := by
      unfold signalOf at hsig1 ⊢
      rw [← hf1, ← hf2]
      exact hsig1
    have hne : st.position ≠ 0 := by rw [hshort]; decide
    have hpt1 : postTradeState p vt st row1 = st := by
      unfold postTradeState
      simp only [closePhase_neg_eq p vt st row1
          (by rintro ⟨hs1, -, -⟩; exact hs1 (by rw [hsig1, hshort])),
        openPhase_neg_eq p vt st row1
          (by rintro ⟨hs1, -⟩; exact hs1 (by rw [hsig1, hshort]))]
      rw [if_neg (show ¬signalOf p vt row1 ≠ st.position by simp [hsig1, hshort])]
    have hpt2 : postTradeState p vt st row2 = st := by
      unfold postTradeState
      simp only [closePhase_neg_eq p vt st row2
          (by rintro ⟨hs1, -, -⟩; exact hs1 (by rw [hsig2, hshort])),
        openPhase_neg_eq p vt st row2
          (by rintro ⟨hs1, -⟩; exact hs1 (by rw [hsig2, hshort]))]
      rw [if_neg (show ¬signalOf p vt row2 ≠ st.position by simp [hsig2, hshort])]
    rw [stepDay_prevValue_eq, stepDay_prevValue_eq, hpt1, hpt2]
    unfold valueOf
    rw [if_pos ⟨hne, hsh⟩, if_pos ⟨hne, hsh⟩]
    have := mul_lt_mul_of_pos_left hcc hsh
    linarith

unseal Rat.mul Rat.inv Rat.add Rat.sub in
/-- Witness for C10 at a concrete input: the single completed trade of the
example run. -/
theorem short_valued_like_long_witness :
    (exRun.trades.getD 0 default).exit_value =
      roundQ 2 (exRun.trades.getD 0 default).exit_net ∧
    (exRun.trades.getD 0 default).profit_loss =
      roundQ 2 ((exRun.trades.getD 0 default).exit_net -
        (exRun.trades.getD 0 default).entry_value) ∧
    ((exRun.trades.getD 0 default).position = 1 ∨
      (exRun.trades.getD 0 default).position = -1) := by
  have hrun : runLiveSimulation exParams exRows = some exRun := by decide
  exact (short_valued_like_long exParams exRows exRun (by decide) (by decide)
    (by decide) hrun).2.1 _ (by decide)

theorem mkSummary_profit_factor (steps : List SimStep) (trades : List CompletedTrade) :
    ((mkSummary steps trades).profit_factor = ProfitFactor.infinite ↔
      (mkSummary steps trades).total_loss = 0 ∧ 0 < (mkSummary steps trades).total_profit) ∧
    ((mkSummary steps trades).profit_factor = ProfitFactor.val 0 ↔
      (mkSummary steps trades).total_profit = 0) ∧
    ((mkSummary steps trades).total_loss ≠ 0 →
      (mkSummary steps trades).profit_factor =
        ProfitFactor.val
          |(mkSummary steps trades).total_profit / (mkSummary steps trades).total_loss|) := by
  have e1 : (mkSummary steps trades).total_profit =
      ((trades.filter (fun t => 0 < t.profit_loss)).map (fun t => t.profit_loss)).sum := rfl
  have e2 : (mkSummary steps trades).total_loss =
      ((trades.filter (fun t => t.profit_loss ≤ 0)).map (fun t => t.profit_loss)).sum := rfl
  have e3 : (mkSummary steps trades).profit_factor =
      (if ((trades.filter (fun t => t.profit_loss ≤ 0)).map (fun t => t.profit_loss)).sum ≠ 0
       then ProfitFactor.val
         |((trades.filter (fun t => 0 < t.profit_loss)).map (fun t => t.profit_loss)).sum /
           ((trades.filter (fun t => t.profit_loss ≤ 0)).map (fun t => t.profit_loss)).sum|
       else if 0 < ((trades.filter (fun t => 0 < t.profit_loss)).map (fun t => t.profit_loss)).sum
       then ProfitFactor.infinite
       else ProfitFactor.val 0) := rfl
  have htp : 0 ≤ ((trades.filter (fun t => 0 < t.profit_loss)).map (fun t => t.profit_loss)).sum := by
    apply List.sum_nonneg
    intro x hx
    rw [List.mem_map] at hx
    obtain ⟨ct, hct, hx⟩ := hx
    rw [List.mem_filter] at hct
    have hpos := of_decide_eq_true hct.2
    rw [← hx]
    exact le_of_lt hpos
  rw [e1, e2, e3]
  set TP := ((trades.filter (fun t => 0 < t.profit_loss)).map (fun t => t.profit_loss)).sum with hTP
  set TL := ((trades.filter (fun t => t.profit_loss ≤ 0)).map (fun t => t.profit_loss)).sum with hTL
  by_cases htl : TL = 0
  · rw [if_neg (by simp [htl])]
    by_cases htp0 : 0 < TP
    · rw [if_pos htp0]
      refine ⟨by simp [htl, htp0], ⟨?_, ?_⟩, fun hc => absurd htl hc⟩
      · intro h
        exact ProfitFactor.noConfusion h
      · intro h
        rw [h] at htp0
        exact absurd htp0 (lt_irrefl 0)
    · rw [if_neg htp0]
      refine ⟨⟨?_, ?_⟩, ⟨?_, ?_⟩, fun hc => absurd htl hc⟩
      · intro h
        exact ProfitFactor.noConfusion h
      · rintro ⟨-, h⟩
        exact absurd h htp0
      · intro _
        linarith
      · intro _
        rfl
  · rw [if_pos htl]
    refine ⟨⟨?_, ?_⟩, ⟨?_, ?_⟩, fun _ => rfl⟩
    · intro h
      exact ProfitFactor.noConfusion h
    · rintro ⟨h, -⟩
      exact absurd h htl
    · intro h
      injection h with h'
      rw [abs_eq_zero, div_eq_zero_iff] at h'
      rcases h' with h' | h'
      · exact h'
      · exact absurd h' htl
    · intro h
      rw [h]
      simp

/-- C4 (amended): for every completed run, the summary profit factor is the
infinite sentinel exactly when the total loss is zero and the total profit is
positive; whenever the total loss is nonzero it equals the absolute ratio
|total_profit / total_loss|; and it equals zero exactly when the total profit
is zero — also when losses exist, since |0 / total_loss| = 0 (the original
claim required total_loss = 0 as well, which the code does not). -/
theorem profit_factor_characterization (p : SimParams) (rows : List FeatureRow)
    (res : SimResult) (hrun : runLiveSimulation p rows = some res) :
    (res.summary.profit_factor = ProfitFactor.infinite ↔
      res.summary.total_loss = 0 ∧ 0 < res.summary.total_profit) ∧
    (res.summary.profit_factor = ProfitFactor.val 0 ↔ res.summary.total_profit = 0) ∧
    (res.summary.total_loss ≠ 0 →
      res.summary.profit_factor =
        ProfitFactor.val |res.summary.total_profit / res.summary.total_loss|) := by
  obtain ⟨vt, -, -, -, hsum⟩ := runLiveSimulation_dest p rows res hrun
  rw [hsum]
  exact mkSummary_profit_factor _ _

unseal Rat.mul Rat.inv Rat.add Rat.sub in
/-- C4 (counterexample): the example run completes one losing trade and no
winning one, so total_loss = -9.99 is nonzero while the profit factor is the
numeric 0 — refuting that profit_factor is 0 only when both totals are 0. -/
theorem profit_factor_counterexample :
    exRun.summary.profit_factor = ProfitFactor.val 0 ∧
    exRun.summary.total_loss ≠ 0 ∧
    (runLiveSimulation exParams exRows).isSome = true := by
  decide

unseal Rat.mul Rat.inv Rat.add Rat.sub in
/-- Witness for the amended C4 at a concrete input: the example run, whose
single losing trade makes the total loss nonzero, so the ratio clause
applies. -/
theorem profit_factor_characterization_witness :
    (exRun.summary.profit_factor = ProfitFactor.val 0 ↔ exRun.summary.total_profit = 0) ∧
    exRun.summary.profit_factor =
      ProfitFactor.val |exRun.summary.total_profit / exRun.summary.total_loss| := by
  have hrun : runLiveSimulation exParams exRows = some exRun := by decide
  exact ⟨(profit_factor_characterization exParams exRows exRun hrun).2.1,
    (profit_factor_characterization exParams exRows exRun hrun).2.2 (by decide)⟩

theorem npPercentile_eq_core (p : ℚ) (xs : List ℚ) (h : xs ≠ []) :
    npPercentile p xs = some (npPercentileCore p xs) := by
  unfold npPercentile
  rw [if_neg h]

theorem mem_insertByKey {α : Type} (key : α → ℚ) (x y : α) :
    ∀ l : List α, y ∈ insertByKey key x l ↔ y = x ∨ y ∈ l := by
  intro l
  induction l with
  | nil => simp [insertByKey]
  | cons z zs ih =>
    unfold insertByKey
    split
    · rw [List.mem_cons, ih, List.mem_cons]
      tauto
    · simp only [List.mem_cons]

theorem perm_insertByKey {α : Type} (key : α → ℚ) (x : α) :
    ∀ l : List α, (insertByKey key x l).Perm (x :: l) := by
  intro l
  induction l with
  | nil => exact List.Perm.refl _
  | cons y ys ih =>
    unfold insertByKey
    split
    · exact (ih.cons y).trans (List.Perm.swap x y ys)
    · exact List.Perm.refl _

theorem perm_sortByKey {α : Type} (key : α → ℚ) :
    ∀ l : List α, (sortByKey key l).Perm l := by
  intro l
  induction l with
  | nil => exact List.Perm.refl _
  | cons x xs ih =>
    unfold sortByKey
    exact (perm_insertByKey key x (sortByKey key xs)).trans (ih.cons x)

theorem sorted_insertByKey {α : Type} (key : α → ℚ) (x : α) :
    ∀ l : List α, List.Sorted (fun a b => key a ≤ key b) l →
      List.Sorted (fun a b => key a ≤ key b) (insertByKey key x l) := by
  intro l
  induction l with
  | nil => intro _; simp [insertByKey]
  | cons y ys ih =>
    intro h
    rw [List.sorted_cons] at h
    obtain ⟨hy, hys⟩ := h
    unfold insertByKey
    split
    · rename_i hlt
      rw [List.sorted_cons]
      refine ⟨?_, ih hys⟩
      intro b hb
      rcases (mem_insertByKey key x b ys).mp hb with hb | hb
      · rw [hb]
        exact le_of_lt hlt
      · exact hy b hb
    · rename_i hnlt
      rw [List.sorted_cons]
      refine ⟨?_, ?_⟩
      · intro b hb
        rcases List.mem_cons.mp hb with hb | hb
        · rw [hb]
          exact le_of_not_lt hnlt
        · exact le_trans (le_of_not_lt hnlt) (hy b hb)
      · rw [List.sorted_cons]
        exact ⟨hy, hys⟩

theorem sorted_sortByKey {α : Type} (key : α → ℚ) :
    ∀ l : List α, List.Sorted (fun a b => key a ≤ key b) (sortByKey key l) := by
  intro l
  induction l with
  | nil => simp [sortByKey]
  | cons x xs ih =>
    unfold sortByKey
    exact sorted_insertByKey key x (sortByKey key xs) ih

/-- The two properties pandas sort_values guarantees of the ranking, shown to
hold of the stable realization: the output is a permutation of the input,
sorted descending by sharpe. -/
theorem sortBySharpeDesc_spec (rs : List CellResult) :
    (sortBySharpeDesc rs).Perm rs ∧
    List.Sorted (fun a b : CellResult => b.sharpe ≤ a.sharpe) (sortBySharpeDesc rs) := by
  constructor
  · unfold sortBySharpeDesc
    exact ((sortByKey (fun r => r.sharpe) rs.reverse).reverse_perm.trans
      (perm_sortByKey _ rs.reverse)).trans rs.reverse_perm
  · unfold sortBySharpeDesc
    exact List.pairwise_reverse.mpr
      (sorted_sortByKey (fun r : CellResult => r.sharpe) rs.reverse)

set_option maxRecDepth 20000 in
unseal Rat.mul Rat.inv Rat.add Rat.sub in
/-- C5 (code evaluation): the half of the claim the code guarantees, and the
evaluation at the failing input of the half it does not.  For every ranking
sort satisfying what pandas sort_values with the default kind guarantees — a
permutation of the cells, sorted descending by sharpe — the optimizer
succeeds and returns a best cell that lies in the grid and attains the
maximal sharpe; each grid cell agrees with the raising per-cell backtest.  At
the failing input — the default 11-by-7 grid over a flat two-day series with
zero transaction cost — all 77 cells carry the same sharpe 0, so which tied
cell sort_values ranks first is decided entirely by the unspecified tie order
of the unstable default argsort: nothing in the code enforces the claimed
first-enumerated tie-break. -/
theorem optimizer_best_cell (sortDesc : List CellResult → List CellResult)
    (sqrtQ : ℚ → ℚ) (powQ : ℚ → ℕ → ℚ) (s0 s1 s2 v0 v1 v2 tc : ℚ)
    (rows : List FeatureRow)
    (hsort : ∀ rs : List CellResult,
      (sortDesc rs).Perm rs ∧
      List.Sorted (fun a b : CellResult => b.sharpe ≤ a.sharpe) (sortDesc rs))
    (hrows : rows ≠ [])
    (hcol : rows.filterMap (·.volatility_5d) ≠ [])
    (hgrid : gridResults
      (fun s v => runStrategyBacktestWith sqrtQ powQ rows s v
        (npPercentileCore v (rows.filterMap (·.volatility_5d))) tc)
      (sentimentValues s0 s1 s2) (volatilityValues v0 v1 v2) ≠ []) :
    (∀ s v, runStrategyBacktest sqrtQ powQ rows s v tc =
      some (runStrategyBacktestWith sqrtQ powQ rows s v
        (npPercentileCore v (rows.filterMap (·.volatility_5d))) tc)) ∧
    (∃ res : OptResult,
      optimizeStrategy sortDesc sqrtQ powQ s0 s1 s2 v0 v1 v2 tc rows = some res ∧
      res.best_parameters ∈ res.results ∧
      ∀ r ∈ res.results, r.sharpe ≤ res.best_parameters.sharpe) ∧
    (gridResults
        (fun s v => runStrategyBacktestWith id (fun b _ => b) exFlatRows s v
          (npPercentileCore v (exFlatRows.filterMap (·.volatility_5d))) 0)
        (sentimentValues (-(1/2)) (1/2) (1/10)) (volatilityValues 20 80 10)).map
      (fun r => r.sharpe) = List.replicate 77 0 := by
  refine ⟨?_, ?_, ?_⟩
  · intro s v
    unfold runStrategyBacktest volatilityThreshold
    rw [npPercentile_eq_core v _ hcol]
    rfl
  · obtain ⟨hperm, hsorted⟩ := hsort (gridResults
      (fun s v => runStrategyBacktestWith sqrtQ powQ rows s v
        (npPercentileCore v (rows.filterMap (·.volatility_5d))) tc)
      (sentimentValues s0 s1 s2) (volatilityValues v0 v1 v2))
    rcases hsd : sortDesc (gridResults
      (fun s v => runStrategyBacktestWith sqrtQ powQ rows s v
        (npPercentileCore v (rows.filterMap (·.volatility_5d))) tc)
      (sentimentValues s0 s1 s2) (volatilityValues v0 v1 v2)) with _ | ⟨best, tail⟩
    · rw [hsd] at hperm
      exact absurd hperm.symm.eq_nil hgrid
    · rw [hsd] at hperm hsorted
      have hopt : optimizeStrategy sortDesc sqrtQ powQ s0 s1 s2 v0 v1 v2 tc rows =
          some { best_parameters := best
                 results := gridResults
                   (fun s v => runStrategyBacktestWith sqrtQ powQ rows s v
                     (npPercentileCore v (rows.filterMap (·.volatility_5d))) tc)
                   (sentimentValues s0 s1 s2) (volatilityValues v0 v1 v2)
                 ranked := best :: tail
                 total_combinations := (gridResults
                   (fun s v => runStrategyBacktestWith sqrtQ powQ rows s v
                     (npPercentileCore v (rows.filterMap (·.volatility_5d))) tc)
                   (sentimentValues s0 s1 s2) (volatilityValues v0 v1 v2)).length } := by
        simp only [optimizeStrategy]
        rw [if_neg (by simp [hrows]), if_neg hcol, hsd]
        rfl
      refine ⟨_, hopt, ?_, ?_⟩
      · exact (hperm.mem_iff).mp (List.mem_cons_self _ _)
      · intro r hr
        have hr2 : r ∈ best :: tail := (hperm.mem_iff).mpr hr
        rw [List.sorted_cons] at hsorted
        rcases List.mem_cons.mp hr2 with hr2 | hr2
        · exact le_of_eq (by rw [hr2])
        · exact hsorted.1 r hr2
  · decide

unseal Rat.mul Rat.inv Rat.add Rat.sub in
/-- Witness for C5 at a concrete input: the stable sort realization on a
3-by-3 grid over the example series, with identity square root and power. -/
theorem optimizer_best_cell_witness :
    optimizeStrategy sortBySharpeDesc id (fun b _ => b)
      0 (1/5) (1/10) 40 60 10 (1/1000) exRows = some exOpt ∧
    exOpt.best_parameters ∈ exOpt.results := by
  obtain ⟨-, ⟨res, h1, h2, -⟩, -⟩ := optimizer_best_cell sortBySharpeDesc id (fun b _ => b)
    0 (1/5) (1/10) 40 60 10 (1/1000) exRows (fun rs => sortBySharpeDesc_spec rs)
    (by decide) (by decide) (by decide)
  have he : exOpt = res := by
    unfold exOpt
    rw [h1]
    rfl
  rw [he]
  exact ⟨h1, h2⟩
